import Mathlib

/-!
Verification development for the real-time chat backend core
(messages service, chat gateway, visibility filter and presence registry).

The definitions below are a shallow embedding of the TypeScript source:
* `src/messages/entities/message.entity.ts` (the `Message` row and enums),
* `src/messages/entities/message-deletion.entity.ts` (`MessageDeletion` rows),
* `src/messages/messages.service.ts` (`MessagesService` operations),
* `src/messages/chat.gateway.ts` (`ChatGateway` presence maps and fan-out),
* `src/conversations/conversations.service.ts` (`ConversationsService`:
  the participant relation `isParticipant`/`findByUserId` and the
  conversation rows' last-message preview `updateLastMessage`).

The durable store is modelled as lists of rows; TypeORM query-builder
`UPDATE`/`SELECT` statements become `List.map` / `List.filter` over those
rows, with `ORDER BY` an insertion sort and `LIMIT`/`OFFSET` as
`List.take` / `List.drop`.  SQL `LIKE` is modelled by an executable
pattern matcher `likeMatch` with `%` and `_` wildcards.  Fallible
operations return `Except ChatError`.
-/

namespace ChatApp

abbrev UserId := String
abbrev ConvId := String
abbrev MsgId := String
abbrev SocketId := String

/-- `MessageStatus` from `message.entity.ts`. -/
inductive MessageStatus
  | SENDING
  | SENT
  | DELIVERED
  | READ
  deriving DecidableEq, Repr

/-- `MessageType` from `message-type.enum.ts`. -/
inductive MessageType
  | TEXT
  | IMAGE
  | FILE
  | VIDEO
  | AUDIO
  | SYSTEM
  deriving DecidableEq, Repr

/-- The `messages` table row (`Message` entity).  `createdAt`/`editedAt`
are abstract timestamps (`Nat`). -/
structure Message where
  id : MsgId
  conversationId : ConvId
  senderId : UserId
  content : Option String
  type : MessageType
  fileUrl : Option String := none
  fileName : Option String := none
  fileMimeType : Option String := none
  fileSize : Option Nat := none
  status : MessageStatus
  isDeleted : Bool := false
  replyToMessageId : Option MsgId := none
  forwardedFromId : Option MsgId := none
  editedAt : Option Nat := none
  createdAt : Nat := 0
  deriving DecidableEq, Repr

/-- Error taxonomy: `NotFoundException`, `ForbiddenException`,
`BadRequestException` as thrown by `MessagesService`. -/
inductive ChatError
  | notFound
  | forbidden
  | badRequest
  deriving DecidableEq, Repr

/-- One conversation row's last-message preview columns
(`lastMessageId` / `lastMessageContent` / `lastMessageSenderId` /
`lastMessageType` / `lastMessageAt` on the `Conversation` entity),
written by `ConversationsService.updateLastMessage`. -/
structure LastMessagePreview where
  lastMessageId : MsgId
  lastMessageContent : Option String
  lastMessageSenderId : UserId
  lastMessageType : MessageType
  lastMessageAt : Nat
  deriving DecidableEq, Repr

/-- The durable store.  `messages` is the `messages` table; `deletions`
the `message_deletions` table ((messageId, userId) pairs);
`participants` the `conversation_participants` table of
`ConversationsService` projected to its unique
`(conversationId, userId)` key pairs (its `role` and `lastReadAt`
columns are never read by the operations verified here); `lastPreview`
the conversations table projected to id and preview columns (`none`
while a conversation's preview columns are still null). -/
structure Store where
  messages : List Message
  deletions : List (MsgId × UserId)
  participants : List (ConvId × UserId)
  lastPreview : List (ConvId × Option LastMessagePreview)
  deriving DecidableEq, Repr

/-- `ConversationsService.isParticipant(conversationId, userId)`:
`participantRepository.findOne({ where: { conversationId, userId } })`
turned into a boolean. -/
def isParticipant (s : Store) (conversationId : ConvId) (userId : UserId) : Bool :=
  s.participants.contains (conversationId, userId)

/-- `ConversationsService.findByUserId(userId)` projected to
conversation ids: the participation rows of this user, keyed by
conversation.  (The source then loads the conversations ordered by
`updatedAt DESC`; every caller in scope uses only the id set, so the
ordering is immaterial.) -/
def userConversationIds (s : Store) (userId : UserId) : List ConvId :=
  (s.participants.filter (fun p => p.2 = userId)).map (fun p => p.1)

/-- `messageRepository.findOne({ where: { id } })`. -/
def findMessage (s : Store) (messageId : MsgId) : Option Message :=
  s.messages.find? (fun m => m.id = messageId)

/-- `messageRepository.save(message)` on an already-loaded row: replaces
the row with the same primary key. -/
def saveRow (messages : List Message) (m : Message) : List Message :=
  messages.map (fun old => if old.id = m.id then m else old)

/-- `MessagesService.updateStatus`: loads the message, overwrites its
`status` field unconditionally, and saves it. -/
def updateStatus (s : Store) (messageId : MsgId) (status : MessageStatus) :
    Except ChatError (Message × Store) :=
  match findMessage s messageId with
  | none => .error .notFound
  | some m =>
    let m2 := { m with status := status }
    .ok (m2, { s with messages := saveRow s.messages m2 })

/-- Eligibility predicate of the `UPDATE` in
`MessagesService.markConversationAsRead`: same conversation, not sent by
this user, not already READ, not globally deleted. -/
def readEligible (conversationId : ConvId) (userId : UserId) (m : Message) : Bool :=
  m.conversationId = conversationId && m.senderId ≠ userId &&
    m.status ≠ MessageStatus.READ && m.isDeleted = false

/-- `MessagesService.markConversationAsRead`: batch `UPDATE ... SET
status = READ` over the eligible rows; returns the affected row count. -/
def markConversationAsRead (s : Store) (conversationId : ConvId) (userId : UserId) :
    Nat × Store :=
  let affected := s.messages.countP (readEligible conversationId userId)
  let messages := s.messages.map (fun m =>
    if readEligible conversationId userId m then { m with status := MessageStatus.READ } else m)
  (affected, { s with messages := messages })

/-- Eligibility predicate of the `UPDATE` in
`MessagesService.markMessagesAsDeliveredForUser`: conversation among the
user's conversations, not sent by this user, currently SENT, not
globally deleted. -/
def deliverEligible (conversationIds : List ConvId) (userId : UserId) (m : Message) : Bool :=
  conversationIds.contains m.conversationId && m.senderId ≠ userId &&
    m.status = MessageStatus.SENT && m.isDeleted = false

/-- `MessagesService.markMessagesAsDeliveredForUser`: finds the user's
conversations, the distinct conversation ids holding eligible SENT rows,
then batch-updates those rows to DELIVERED.  Both empty-case early
returns of the source are kept. -/
def markMessagesAsDeliveredForUser (s : Store) (userId : UserId) :
    (Nat × List ConvId) × Store :=
  let conversationIds := userConversationIds s userId
  if conversationIds.isEmpty then ((0, []), s)
  else
    let affectedConversationIds :=
      ((s.messages.filter (deliverEligible conversationIds userId)).map
        (fun m => m.conversationId)).dedup
    if affectedConversationIds.isEmpty then ((0, []), s)
    else
      let affected := s.messages.countP (deliverEligible conversationIds userId)
      let messages := s.messages.map (fun m =>
        if deliverEligible conversationIds userId m then
          { m with status := MessageStatus.DELIVERED } else m)
      ((affected, affectedConversationIds), { s with messages := messages })

/-- Insertion into a list sorted w.r.t. the boolean order `le`
(models the database `ORDER BY`). -/
def insertLe (le : Message → Message → Bool) (a : Message) : List Message → List Message
  | [] => [a]
  | b :: l => if le a b then a :: b :: l else b :: insertLe le a l

/-- Insertion sort w.r.t. the boolean order `le`. -/
def sortLe (le : Message → Message → Bool) : List Message → List Message
  | [] => []
  | a :: l => insertLe le a (sortLe le l)

/-- `ORDER BY createdAt ASC`. -/
def byCreatedAsc (a b : Message) : Bool :=
  a.createdAt ≤ b.createdAt

/-- `ORDER BY createdAt DESC`. -/
def byCreatedDesc (a b : Message) : Bool :=
  b.createdAt ≤ a.createdAt

/-- All suffixes of a list, longest first (the list itself included). -/
def suffixes : List Char → List (List Char)
  | [] => [[]]
  | c :: s => (c :: s) :: suffixes s

/-- SQL `LIKE` matching over character lists: `%` matches any sequence
(tried against every suffix), `_` any single character, anything else
itself; the whole string must be consumed. -/
def likeMatch : List Char → List Char → Bool
  | [], s => s.isEmpty
  | p :: ps, s =>
    if p = '%' then (suffixes s).any (fun t => likeMatch ps t)
    else
      match s with
      | [] => false
      | c :: s2 => if p = '_' then likeMatch ps s2 else p = c && likeMatch ps s2

/-- Character-wise lower-casing, the model of both SQL `LOWER` and JS
`toLowerCase` on the ASCII contents exercised here. -/
def lowerChars (s : String) : List Char :=
  s.toList.map Char.toLower

/-- The `LOWER(content) LIKE :searchQuery` condition with
`searchQuery = '%' + query.toLowerCase() + '%'`; a NULL content never
matches. -/
def contentLikeQuery (query : String) (content : Option String) : Bool :=
  match content with
  | none => false
  | some c => likeMatch ('%' :: lowerChars query ++ ['%']) (lowerChars c)

/-- `MessagesService.validateMessageContent` as a boolean: `true` when
the dto passes validation (content present for TEXT, fileUrl present for
IMAGE/FILE). -/
structure CreateMessageDto where
  conversationId : ConvId
  senderId : UserId
  content : Option String := none
  type : MessageType
  fileUrl : Option String := none
  fileName : Option String := none
  fileMimeType : Option String := none
  fileSize : Option Nat := none
  replyToMessageId : Option MsgId := none
  deriving DecidableEq, Repr

/-- A missing or whitespace-only string (the JS falsy test on
`s?.trim()`). -/
def isBlank (s : Option String) : Bool :=
  (s.getD "").toList.all (fun c => c.isWhitespace)

/-- The throw conditions of `validateMessageContent`: content blank for a
TEXT message, or fileUrl blank for an IMAGE/FILE message. -/
def validateMessageContent (dto : CreateMessageDto) : Bool :=
  !(dto.type = MessageType.TEXT && isBlank dto.content) &&
    !((dto.type = MessageType.IMAGE || dto.type = MessageType.FILE) &&
      isBlank dto.fileUrl)

/-- `ConversationsService.updateLastMessage`:
`conversationRepository.update(conversationId, { lastMessageId,
lastMessageContent, lastMessageSenderId, lastMessageType,
lastMessageAt })` — an UPDATE by primary key that rewrites the preview
columns of the matching conversation row and touches nothing else (a
missing id updates no row, as with the underlying `repository.update`). -/
def updateLastMessage (preview : List (ConvId × Option LastMessagePreview))
    (conversationId : ConvId) (messageId : MsgId) (content : Option String)
    (senderId : UserId) (type : MessageType) (now : Nat) :
    List (ConvId × Option LastMessagePreview) :=
  preview.map (fun p =>
    if p.1 = conversationId then
      (p.1, some
        { lastMessageId := messageId
          lastMessageContent := content
          lastMessageSenderId := senderId
          lastMessageType := type
          lastMessageAt := now })
    else p)

/-- `MessagesService.saveMessage`: validates the payload, checks
membership, persists the new row with status SENT, then updates the
conversation's last-message preview.  `newId`/`now` stand for the
generated primary key and the `createdAt` timestamp. -/
def saveMessage (s : Store) (dto : CreateMessageDto) (newId : MsgId) (now : Nat) :
    Except ChatError (Message × Store) :=
  if validateMessageContent dto = false then .error .badRequest
  else if isParticipant s dto.conversationId dto.senderId = false then .error .forbidden
  else
    let m : Message :=
      { id := newId
        conversationId := dto.conversationId
        senderId := dto.senderId
        content := dto.content
        type := dto.type
        fileUrl := dto.fileUrl
        fileName := dto.fileName
        fileMimeType := dto.fileMimeType
        fileSize := dto.fileSize
        status := MessageStatus.SENT
        replyToMessageId := dto.replyToMessageId
        createdAt := now }
    .ok (m, { s with
      messages := s.messages ++ [m]
      lastPreview := updateLastMessage s.lastPreview m.conversationId m.id
        m.content m.senderId m.type now })

/-- `MessagesService.editMessage`: NotFound, then the sender check, then
the TEXT-only and not-deleted checks, then content/editedAt update. -/
def editMessage (s : Store) (messageId : MsgId) (userId : UserId) (newContent : String)
    (now : Nat) : Except ChatError (Message × Store) :=
  match findMessage s messageId with
  | none => .error .notFound
  | some m =>
    if m.senderId ≠ userId then .error .forbidden
    else if m.type ≠ MessageType.TEXT then .error .badRequest
    else if m.isDeleted then .error .badRequest
    else
      let m2 := { m with content := some newContent, editedAt := some now }
      .ok (m2, { s with messages := saveRow s.messages m2 })

/-- `MessagesService.deleteMessageForEveryone`: NotFound, sender check,
then sets `isDeleted` and clears the content. -/
def deleteMessageForEveryone (s : Store) (messageId : MsgId) (userId : UserId) :
    Except ChatError Store :=
  match findMessage s messageId with
  | none => .error .notFound
  | some m =>
    if m.senderId ≠ userId then .error .forbidden
    else
      let m2 := { m with isDeleted := true, content := none }
      .ok { s with messages := saveRow s.messages m2 }

/-- `MessagesService.deleteMessageForMe`: NotFound, then inserts a
(messageId, userId) deletion row unless one already exists. -/
def deleteMessageForMe (s : Store) (messageId : MsgId) (userId : UserId) :
    Except ChatError Store :=
  match findMessage s messageId with
  | none => .error .notFound
  | some _ =>
    if s.deletions.contains (messageId, userId) then .ok s
    else .ok { s with deletions := (messageId, userId) :: s.deletions }

/-- The message ids deleted "for me" by this user
(`deletionRepository.find({ where: { userId } })`). -/
def deletedIdsFor (s : Store) (userId : UserId) : List MsgId :=
  (s.deletions.filter (fun d => d.2 = userId)).map (fun d => d.1)

/-- `MessagesService.findByConversationIdFiltered`: drops globally
deleted rows and rows in the viewer's deletion set, orders by createdAt
ascending, applies OFFSET/LIMIT.  (The source guards the `NOT IN` clause
behind a non-emptiness test, which is equivalent to filtering against a
possibly-empty list.) -/
def findByConversationIdFiltered (s : Store) (conversationId : ConvId) (userId : UserId)
    (limit : Nat := 50) (offset : Nat := 0) : List Message :=
  let deletedMessageIds := deletedIdsFor s userId
  let rows := s.messages.filter (fun m =>
    m.conversationId = conversationId && m.isDeleted = false &&
      !(deletedMessageIds.contains m.id))
  ((sortLe byCreatedAsc rows).drop offset).take limit

/-- `MessagesService.searchMessages`: participant check, then the LIKE
filter over non-globally-deleted rows of one conversation, newest
first, LIMIT. -/
def searchMessages (s : Store) (conversationId : ConvId) (userId : UserId) (query : String)
    (limit : Nat := 20) : Except ChatError (List Message) :=
  if isParticipant s conversationId userId = false then .error .forbidden
  else
    let rows := s.messages.filter (fun m =>
      m.conversationId = conversationId && contentLikeQuery query m.content &&
        m.isDeleted = false)
    .ok ((sortLe byCreatedDesc rows).take limit)

/-- `MessagesService.searchMessagesGlobal`: the same LIKE filter scoped
to all the searcher's conversations. -/
def searchMessagesGlobal (s : Store) (userId : UserId) (query : String)
    (limit : Nat := 50) : List Message :=
  let conversationIds := userConversationIds s userId
  if conversationIds.isEmpty then []
  else
    let rows := s.messages.filter (fun m =>
      conversationIds.contains m.conversationId && contentLikeQuery query m.content &&
        m.isDeleted = false)
    (sortLe byCreatedDesc rows).take limit

/-- `MessagesService.forwardMessage`: NotFound on the original id,
participant check on the *target* conversation only, then persists an
independent copy (content and file fields copied, `forwardedFromId` set,
status SENT). -/
def forwardMessage (s : Store) (messageId : MsgId) (userId : UserId)
    (targetConversationId : ConvId) (newId : MsgId) (now : Nat) :
    Except ChatError (Message × Store) :=
  match findMessage s messageId with
  | none => .error .notFound
  | some original =>
    if isParticipant s targetConversationId userId = false then .error .forbidden
    else
      let m : Message :=
        { id := newId
          conversationId := targetConversationId
          senderId := userId
          content := original.content
          type := original.type
          fileUrl := original.fileUrl
          fileName := original.fileName
          fileMimeType := original.fileMimeType
          fileSize := original.fileSize
          status := MessageStatus.SENT
          forwardedFromId := some messageId
          createdAt := now }
      .ok (m, { s with messages := s.messages ++ [m] })

/-- The in-memory presence maps of `ChatGateway`: `userSockets`
(userId → set of socketIds, as an association list of lists) and
`socketUsers` (socketId → userId). -/
structure PresenceState where
  userSockets : List (UserId × List SocketId)
  socketUsers : List (SocketId × UserId)
  deriving DecidableEq, Repr

/-- The empty registry (gateway start-up). -/
def PresenceState.empty : PresenceState :=
  { userSockets := [], socketUsers := [] }

/-- Presence-relevant events emitted by the gateway
(`userOnline` / `userOffline` broadcasts). -/
inductive PresenceEvent
  | userOnline (userId : UserId)
  | userOffline (userId : UserId)
  deriving DecidableEq, Repr

/-- Association-list lookup (JS `Map.get`). -/
def alistGet (l : List (UserId × List SocketId)) (k : UserId) : Option (List SocketId) :=
  (l.find? (fun p => p.1 = k)).map (fun p => p.2)

/-- Replace the value stored under a key (JS `Map.set` on an existing
key): rewrites every entry with that key. -/
def alistSet (l : List (UserId × List SocketId)) (k : UserId) (v : List SocketId) :
    List (UserId × List SocketId) :=
  l.map (fun p => if p.1 = k then (k, v) else p)

/-- Remove a key (JS `Map.delete`). -/
def alistRemove (l : List (UserId × List SocketId)) (k : UserId) :
    List (UserId × List SocketId) :=
  l.filter (fun p => p.1 ≠ k)

/-- `Set.add` on a socket-id set represented as a duplicate-free list. -/
def socketInsert (socketId : SocketId) (sockets : List SocketId) : List SocketId :=
  if sockets.contains socketId then sockets else sockets ++ [socketId]

/-- `ChatGateway.handleConnection`: with a userId in the handshake, the
socket is recorded in both maps and a `userOnline` event is emitted; an
anonymous client is rejected with no registry change. -/
def handleConnection (st : PresenceState) (socketId : SocketId) (userId : Option UserId) :
    PresenceState × List PresenceEvent :=
  match userId with
  | none => (st, [])
  | some u =>
    let socketUsers := (socketId, u) :: st.socketUsers.filter (fun p => p.1 ≠ socketId)
    let userSockets :=
      match alistGet st.userSockets u with
      | none => st.userSockets ++ [(u, [socketId])]
      | some sockets => alistSet st.userSockets u (socketInsert socketId sockets)
    ({ userSockets := userSockets, socketUsers := socketUsers },
      [PresenceEvent.userOnline u])

/-- `ChatGateway.handleDisconnect`: looks the user up via `socketUsers`,
removes the socket from the user's set, deletes the key and emits
`userOffline` when the set becomes empty, and finally removes the
socket → user entry. -/
def handleDisconnect (st : PresenceState) (socketId : SocketId) :
    PresenceState × List PresenceEvent :=
  match (st.socketUsers.find? (fun p => p.1 = socketId)).map (fun p => p.2) with
  | none => (st, [])
  | some u =>
    let socketUsers := st.socketUsers.filter (fun p => p.1 ≠ socketId)
    match alistGet st.userSockets u with
    | none => ({ st with socketUsers := socketUsers }, [])
    | some sockets =>
      let remaining := sockets.erase socketId
      if remaining.isEmpty then
        ({ userSockets := alistRemove st.userSockets u, socketUsers := socketUsers },
          [PresenceEvent.userOffline u])
      else
        ({ userSockets := alistSet st.userSockets u remaining, socketUsers := socketUsers },
          [])

/-- A connection-lifecycle event fed to the gateway. -/
inductive ConnEvent
  | connect (socketId : SocketId) (userId : Option UserId)
  | disconnect (socketId : SocketId)
  deriving DecidableEq, Repr

/-- One gateway step, discarding the emitted broadcasts. -/
def presenceStep (st : PresenceState) : ConnEvent → PresenceState
  | ConnEvent.connect socketId userId => (handleConnection st socketId userId).1
  | ConnEvent.disconnect socketId => (handleDisconnect st socketId).1

/-- The registry state after a sequence of connection events, from the
empty registry. -/
def presenceRun (events : List ConnEvent) : PresenceState :=
  events.foldl presenceStep PresenceState.empty

/-- `ChatGateway.isUserOnline`: key membership in `userSockets`. -/
def isUserOnline (st : PresenceState) (userId : UserId) : Bool :=
  (st.userSockets.find? (fun p => p.1 = userId)).isSome

/-- `ChatGateway.getOnlineUserIds`: the keys of `userSockets`. -/
def getOnlineUserIds (st : PresenceState) : List UserId :=
  st.userSockets.map (fun p => p.1)

/-- The user's live connection set (`connectionsOf`): the socket set
stored under the key, empty when the key is absent. -/
def connectionsOf (st : PresenceState) (userId : UserId) : List SocketId :=
  (alistGet st.userSockets userId).getD []

/-- Events emitted by `ChatGateway.broadcastToConversation`: one
`newMessage` to the conversation room, plus `conversationUpdated`
notifications delivered per user through `sendToUser`. -/
inductive FanoutEvent
  | roomNewMessage (conversationId : ConvId) (messageId : MsgId)
  | userConversationUpdated (userId : UserId) (conversationId : ConvId) (messageId : MsgId)
  deriving DecidableEq, Repr

/-- `ChatGateway.broadcastToConversation`: emits to the conversation
room, then walks `participantIds` and sends a per-user
`conversationUpdated` to every participant other than the sender
(`sendToUser`, socket-room membership never consulted). -/
def broadcastToConversation (conversationId : ConvId) (messageId : MsgId)
    (senderId : UserId) (participantIds : Option (List UserId)) : List FanoutEvent :=
  let roomEvents := [FanoutEvent.roomNewMessage conversationId messageId]
  let userEvents :=
    match participantIds with
    | none => []
    | some ps =>
      if ps.isEmpty then []
      else ps.filterMap (fun p =>
        if p ≠ senderId then
          some (FanoutEvent.userConversationUpdated p conversationId messageId)
        else none)
  roomEvents ++ userEvents

/-- Position of a status along the SENT→DELIVERED→READ progression. -/
def statusRank : MessageStatus → Nat
  | MessageStatus.SENDING => 0
  | MessageStatus.SENT => 1
  | MessageStatus.DELIVERED => 2
  | MessageStatus.READ => 3

/-- A sample READ message (concrete instance data for the theorems). -/
def exMsgRead : Message :=
  { id := "m1"
    conversationId := "c1"
    senderId := "alice"
    content := some "hi"
    type := MessageType.TEXT
    status := MessageStatus.READ }

/-- A store holding `exMsgRead` in a two-member conversation. -/
def exStoreC1 : Store :=
  { messages := [exMsgRead]
    deletions := []
    participants := [("c1", "alice"), ("c1", "bob")]
    lastPreview := [] }

/-- A sample SENT text message in conversation `c2`. -/
def exMsgC2 : Message :=
  { id := "m2"
    conversationId := "c2"
    senderId := "ann"
    content := some "hello"
    type := MessageType.TEXT
    status := MessageStatus.SENT }

/-- A store holding `exMsgC2` in a two-member conversation. -/
def exStoreC2 : Store :=
  { messages := [exMsgC2]
    deletions := []
    participants := [("c2", "ann"), ("c2", "bee")]
    lastPreview := [] }

/-- `exStoreC2` after global deletion of `m2`: the row is kept with the
deleted flag set and the content cleared. -/
def exStoreC2' : Store :=
  { exStoreC2 with
    messages := [{ exMsgC2 with isDeleted := true, content := none }] }

/-- A sample SENT text message in conversation `c7`. -/
def exMsgC7 : Message :=
  { id := "m7"
    conversationId := "c7"
    senderId := "pat"
    content := some "yo"
    type := MessageType.TEXT
    status := MessageStatus.SENT }

/-- A store holding `exMsgC7` in a two-member conversation. -/
def exStoreC7 : Store :=
  { messages := [exMsgC7]
    deletions := []
    participants := [("c7", "pat"), ("c7", "vic")]
    lastPreview := [] }

/-- `exStoreC7` after viewer `vic` deletes `m7` for themselves. -/
def exStoreC7' : Store :=
  { exStoreC7 with deletions := [("m7", "vic")] }

/-- The reference-counting invariant of the presence registry: every
stored socket set is non-empty. -/
def presenceInv (st : PresenceState) : Prop :=
  ∀ p ∈ st.userSockets, p.2 ≠ []

/-- A sample connection trace: user `u` connects from two devices. -/
def exTraceC3 : List ConnEvent :=
  [ConnEvent.connect "sA" (some "u"), ConnEvent.connect "sB" (some "u")]

/-- A sample message sent by `ann` in conversation `c8`. -/
def exMsgC8 : Message :=
  { id := "m8"
    conversationId := "c8"
    senderId := "ann"
    content := some "hi"
    type := MessageType.TEXT
    status := MessageStatus.SENT }

/-- A store where `ann` is the only participant of `c8`. -/
def exStoreC8 : Store :=
  { messages := [exMsgC8]
    deletions := []
    participants := [("c8", "ann")]
    lastPreview := [] }

/-- A valid text payload from non-participant `eve`. -/
def exDtoC8 : CreateMessageDto :=
  { conversationId := "c8"
    senderId := "eve"
    content := some "hi there"
    type := MessageType.TEXT }

/-- A globally deleted message by `gil` in conversation `cx`. -/
def exMsgC10 : Message :=
  { id := "m10"
    conversationId := "cx"
    senderId := "gil"
    content := none
    type := MessageType.TEXT
    status := MessageStatus.SENT
    isDeleted := true }

/-- A store where forwarder `fred` participates in the target `ct` but
not in the source conversation `cx` of the deleted message. -/
def exStoreC10 : Store :=
  { messages := [exMsgC10]
    deletions := []
    participants := [("cx", "gil"), ("ct", "fred"), ("ct", "hal")]
    lastPreview := [] }

/-- Prefix test over character lists. -/
def startsWithChars : List Char → List Char → Bool
  | [], _ => true
  | _ :: _, [] => false
  | a :: p, c :: s => a = c && startsWithChars p s

/-- Substring containment over character lists: the needle is a prefix
of some suffix of the haystack. -/
def containsChars (needle hay : List Char) : Bool :=
  (suffixes hay).any (fun t => startsWithChars needle t)

/-- Case-insensitive substring containment of the query in the content,
written from the spec's words ("case-insensitive substring match over
content") for comparison with the `LIKE`-based source condition. -/
def containsCI (query : String) (content : Option String) : Bool :=
  match content with
  | none => false
  | some c => containsChars (lowerChars query) (lowerChars c)

/-- A pattern fragment free of the SQL `LIKE` wildcards `%` and `_`. -/
def noWildcards (p : List Char) : Bool :=
  p.all (fun c => !(c = '%') && !(c = '_'))

/-- A sample message with content `abc` in conversation `c9`. -/
def exMsgC9 : Message :=
  { id := "m9"
    conversationId := "c9"
    senderId := "ann"
    content := some "abc"
    type := MessageType.TEXT
    status := MessageStatus.SENT }

/-- A store holding `exMsgC9` in a conversation with searcher `uu`. -/
def exStoreC9 : Store :=
  { messages := [exMsgC9]
    deletions := []
    participants := [("c9", "ann"), ("c9", "uu")]
    lastPreview := [] }

/-!  ## Lemmas and theorems  -/

/-- Mapping a conditional rewrite over rows none of which satisfy the
condition is the identity. -/
theorem map_ite_of_all_false {p : Message → Bool} {f : Message → Message}
    {l : List Message} (h : ∀ m ∈ l, p m = false) :
    (l.map fun m => if p m then f m else m) = l := by
  induction l with
  | nil => rfl
  | cons a l ih =>
    have ha := h a (by simp)
    simp only [List.map_cons, ha, Bool.false_eq_true, if_false]
    rw [ih fun m hm => h m (by simp [hm])]

/-- Scope equivalence: a conversation id is among
`userConversationIds s u` exactly when `(c, u)` is a membership pair. -/
theorem contains_userConversationIds (s : Store) (u : UserId) (c : ConvId) :
    (userConversationIds s u).contains c = isParticipant s c u := by
  rw [Bool.eq_iff_iff]
  simp only [userConversationIds, isParticipant, List.contains_iff_exists_mem_beq,
    List.mem_map, List.mem_filter, beq_iff_eq, decide_eq_true_eq]
  constructor
  · rintro ⟨x, ⟨pr, ⟨hpr, hu⟩, rfl⟩, rfl⟩
    exact ⟨(pr.1, pr.2), hpr, by simp [hu]⟩
  · rintro ⟨pr, hpr, hbeq⟩
    have : pr = (c, u) := by
      have := hbeq
      simp at this
      exact this.symm
    subst this
    exact ⟨c, ⟨(c, u), ⟨hpr, by simp⟩, rfl⟩, rfl⟩

/-- With an empty conversation scope nothing is delivery-eligible. -/
theorem deliverEligible_nil (u : UserId) (m : Message) :
    deliverEligible [] u m = false := rfl

/-- Normal form of the delivered-batch update: both early returns
coincide with the one-pass conditional rewrite of the message table. -/
theorem markDelivered_messages (s : Store) (u : UserId) :
    (markMessagesAsDeliveredForUser s u).2.messages =
      s.messages.map (fun m =>
        if deliverEligible (userConversationIds s u) u m then
          { m with status := MessageStatus.DELIVERED } else m) := by
  unfold markMessagesAsDeliveredForUser
  dsimp only
  split
  next h1 =>
    rw [List.isEmpty_iff] at h1
    rw [h1]
    exact (map_ite_of_all_false fun m _ => deliverEligible_nil u m).symm
  next h1 =>
    split
    next h2 =>
      rw [List.isEmpty_iff, List.dedup_eq_nil, List.map_eq_nil_iff,
        List.filter_eq_nil_iff] at h2
      exact (map_ite_of_all_false fun m hm => by
        simpa using h2 m hm).symm
    next h2 => rfl

/-- Normal form of the delivered-batch affected-row count. -/
theorem markDelivered_count (s : Store) (u : UserId) :
    (markMessagesAsDeliveredForUser s u).1.1 =
      s.messages.countP (deliverEligible (userConversationIds s u) u) := by
  unfold markMessagesAsDeliveredForUser
  dsimp only
  split
  next h1 =>
    rw [List.isEmpty_iff] at h1
    rw [h1, eq_comm, List.countP_eq_zero]
    intro m _
    simp [deliverEligible_nil]
  next h1 =>
    split
    next h2 =>
      rw [List.isEmpty_iff, List.dedup_eq_nil, List.map_eq_nil_iff,
        List.filter_eq_nil_iff] at h2
      rw [eq_comm, List.countP_eq_zero]
      intro m hm
      simpa using h2 m hm
    next h2 => rfl

/-- The delivered batch touches only the message table. -/
theorem markDelivered_state (s : Store) (u : UserId) :
    (markMessagesAsDeliveredForUser s u).2.deletions = s.deletions ∧
    (markMessagesAsDeliveredForUser s u).2.participants = s.participants ∧
    (markMessagesAsDeliveredForUser s u).2.lastPreview = s.lastPreview := by
  unfold markMessagesAsDeliveredForUser
  dsimp only
  split
  next => exact ⟨rfl, rfl, rfl⟩
  next => split <;> exact ⟨rfl, rfl, rfl⟩

/-- Every status rank is at most the rank of READ. -/
theorem statusRank_le_read (st : MessageStatus) : statusRank st ≤ 3 := by
  cases st <;> simp [statusRank]

/-- The delivered-batch eligibility in claim terms: not globally
deleted, not sent by this user, currently SENT, in a conversation the
user participates in. -/
theorem deliverEligible_eq (s : Store) (u : UserId) (m : Message) :
    deliverEligible (userConversationIds s u) u m =
      (m.isDeleted = false && m.senderId ≠ u && m.status = MessageStatus.SENT &&
        isParticipant s m.conversationId u) := by
  rw [Bool.eq_iff_iff]
  rw [← contains_userConversationIds s u m.conversationId]
  simp only [deliverEligible, Bool.and_eq_true, decide_eq_true_eq]
  tauto

/-- C1.  As stated the claim is false: `updateStatus` overwrites the
status field unconditionally.  On this concrete store the READ message
`m1` is moved back to SENT by `updateStatus`, a regression along
SENT→DELIVERED→READ. -/
theorem updateStatus_regresses_from_READ :
    exMsgRead.status = MessageStatus.READ ∧
    (updateStatus exStoreC1 "m1" MessageStatus.SENT).map
      (fun p => findMessage p.2 "m1") =
        Except.ok (some { exMsgRead with status := MessageStatus.SENT }) ∧
    statusRank MessageStatus.SENT < statusRank MessageStatus.READ := by
  exact ⟨rfl, rfl, by decide⟩

/-- C1 (amended).  The batch operations `markConversationAsRead` and
`markMessagesAsDeliveredForUser` are monotonic along
SENT→DELIVERED→READ and never move a READ message, but `updateStatus`
sets the stored status to its argument unconditionally, so it can move
a status backward (including away from READ). -/
theorem batch_status_monotonic_updateStatus_unconditional :
    (∀ (s : Store) (c : ConvId) (u : UserId),
      List.Forall₂ (fun old new =>
          statusRank old.status ≤ statusRank new.status ∧
          (old.status = MessageStatus.READ → new.status = MessageStatus.READ))
        s.messages (markConversationAsRead s c u).2.messages) ∧
    (∀ (s : Store) (u : UserId),
      List.Forall₂ (fun old new =>
          statusRank old.status ≤ statusRank new.status ∧
          (old.status = MessageStatus.READ → new.status = MessageStatus.READ))
        s.messages (markMessagesAsDeliveredForUser s u).2.messages) ∧
    (∀ (s s2 : Store) (mid : MsgId) (st : MessageStatus) (m2 : Message),
      updateStatus s mid st = Except.ok (m2, s2) → m2.status = st) := by
  refine ⟨?_, ?_, ?_⟩
  · intro s c u
    show List.Forall₂ _ s.messages (s.messages.map _)
    rw [List.forall₂_map_right_iff]
    rw [List.forall₂_same]
    intro m _
    by_cases h : readEligible c u m
    · simp only [h, if_true]
      exact ⟨statusRank_le_read m.status, fun _ => by trivial⟩
    · simp only [h, Bool.false_eq_true, if_false]
      exact ⟨Nat.le_refl _, fun h2 => h2⟩
  · intro s u
    rw [markDelivered_messages]
    rw [List.forall₂_map_right_iff]
    rw [List.forall₂_same]
    intro m _
    by_cases h : deliverEligible (userConversationIds s u) u m
    · have hsent : m.status = MessageStatus.SENT := by
        simp only [deliverEligible, Bool.and_eq_true, decide_eq_true_eq] at h
        exact h.1.2
      simp only [h, if_true]
      refine ⟨?_, ?_⟩
      · rw [hsent]; decide
      · intro hread; rw [hread] at hsent; cases hsent
    · simp only [h, Bool.false_eq_true, if_false]
      exact ⟨Nat.le_refl _, fun h2 => h2⟩
  · intro s s2 mid st m2 hok
    unfold updateStatus at hok
    cases hfind : findMessage s mid with
    | none => rw [hfind] at hok; cases hok
    | some m =>
      rw [hfind] at hok
      simp only [Except.ok.injEq, Prod.mk.injEq] at hok
      rw [← hok.1]

/-- Witness for C1 (amended): the theorem applied to the concrete store
`exStoreC1`, discharging the hypothesis of the `updateStatus` part. -/
theorem batch_status_monotonic_updateStatus_unconditional_witness :
    ({ exMsgRead with status := MessageStatus.SENT } : Message).status
      = MessageStatus.SENT :=
  batch_status_monotonic_updateStatus_unconditional.2.2 exStoreC1
    { exStoreC1 with messages := [{ exMsgRead with status := MessageStatus.SENT }] }
    "m1" MessageStatus.SENT { exMsgRead with status := MessageStatus.SENT } rfl

/-- C5.  Both batch status operations are idempotent: the second of two
immediately successive calls affects 0 rows, and with zero eligible rows
each operation returns an affected count of 0 (a value, not an error). -/
theorem batch_status_ops_idempotent :
    (∀ (s : Store) (c : ConvId) (u : UserId),
      (markConversationAsRead (markConversationAsRead s c u).2 c u).1 = 0) ∧
    (∀ (s : Store) (u : UserId),
      (markMessagesAsDeliveredForUser (markMessagesAsDeliveredForUser s u).2 u).1.1 = 0) ∧
    (∀ (s : Store) (c : ConvId) (u : UserId),
      s.messages.countP (readEligible c u) = 0 → (markConversationAsRead s c u).1 = 0) ∧
    (∀ (s : Store) (u : UserId),
      s.messages.countP (deliverEligible (userConversationIds s u) u) = 0 →
        (markMessagesAsDeliveredForUser s u).1.1 = 0) := by
  refine ⟨?_, ?_, ?_, ?_⟩
  · intro s c u
    show List.countP _ (s.messages.map _) = 0
    rw [List.countP_map, List.countP_eq_zero]
    intro m _
    by_cases h : readEligible c u m
    · simp only [Function.comp_apply, h, if_true]
      simp [readEligible]
    · simp only [Function.comp_apply, h, Bool.false_eq_true, if_false]
      simp only [h, Bool.false_eq_true, not_false_eq_true]
  · intro s u
    have hpart := (markDelivered_state s u).2.1
    have huc : userConversationIds (markMessagesAsDeliveredForUser s u).2 u
        = userConversationIds s u := by
      unfold userConversationIds
      rw [hpart]
    rw [markDelivered_count, huc, markDelivered_messages, List.countP_map,
      List.countP_eq_zero]
    intro m _
    by_cases h : deliverEligible (userConversationIds s u) u m
    · simp only [Function.comp_apply, h, if_true]
      simp [deliverEligible]
    · simp only [Function.comp_apply, h, Bool.false_eq_true, if_false]
      simp only [h, Bool.false_eq_true, not_false_eq_true]
  · intro s c u h
    exact h
  · intro s u h
    rw [markDelivered_count]
    exact h

/-- Witness for C5: the zero-eligible conjuncts applied to the concrete
store `exStoreC1`, whose only message is already READ (not read-eligible
for bob) and not SENT (not delivery-eligible for bob). -/
theorem batch_status_ops_idempotent_witness :
    (markConversationAsRead exStoreC1 "c1" "bob").1 = 0 ∧
    (markMessagesAsDeliveredForUser exStoreC1 "bob").1.1 = 0 :=
  ⟨batch_status_ops_idempotent.2.2.1 exStoreC1 "c1" "bob" (by decide),
   batch_status_ops_idempotent.2.2.2 exStoreC1 "bob" (by decide)⟩

/-- C6.  `markMessagesAsDeliveredForUser u` rewrites to DELIVERED
exactly the rows that are not globally deleted, not sent by `u`,
currently SENT and in a conversation `u` participates in; every other
row is returned unchanged, the affected count is the number of eligible
rows, and no other table is touched. -/
theorem markDelivered_exactly_eligible (s : Store) (u : UserId) :
    (markMessagesAsDeliveredForUser s u).2.messages =
      s.messages.map (fun m =>
        if m.isDeleted = false && m.senderId ≠ u && m.status = MessageStatus.SENT &&
            isParticipant s m.conversationId u then
          { m with status := MessageStatus.DELIVERED } else m) ∧
    (markMessagesAsDeliveredForUser s u).1.1 =
      s.messages.countP (fun m =>
        m.isDeleted = false && m.senderId ≠ u && m.status = MessageStatus.SENT &&
          isParticipant s m.conversationId u) ∧
    (markMessagesAsDeliveredForUser s u).2.deletions = s.deletions ∧
    (markMessagesAsDeliveredForUser s u).2.participants = s.participants := by
  refine ⟨?_, ?_, (markDelivered_state s u).1, (markDelivered_state s u).2.1⟩
  · rw [markDelivered_messages]
    apply List.map_congr_left
    intro m _
    rw [deliverEligible_eq]
  · rw [markDelivered_count]
    apply List.countP_congr
    intro m _
    rw [deliverEligible_eq]

/-- Membership through sorted insertion. -/
theorem mem_insertLe {le : Message → Message → Bool} {a b : Message}
    {l : List Message} : b ∈ insertLe le a l ↔ b = a ∨ b ∈ l := by
  induction l with
  | nil => simp [insertLe]
  | cons c l ih =>
    unfold insertLe
    by_cases h : le a c
    · simp [h]
    · simp only [h, Bool.false_eq_true, if_false, List.mem_cons, ih]
      tauto

/-- The insertion sort does not change list membership. -/
theorem mem_sortLe {le : Message → Message → Bool} {b : Message}
    {l : List Message} : b ∈ sortLe le l ↔ b ∈ l := by
  induction l with
  | nil => simp [sortLe]
  | cons c l ih =>
    unfold sortLe
    rw [mem_insertLe, ih, List.mem_cons]

/-- The insertion sort does not change the length. -/
theorem length_sortLe {le : Message → Message → Bool} {l : List Message} :
    (sortLe le l).length = l.length := by
  induction l with
  | nil => rfl
  | cons c l ih =>
    unfold sortLe
    have hi : ∀ (a : Message) (l2 : List Message),
        (insertLe le a l2).length = l2.length + 1 := by
      intro a l2
      induction l2 with
      | nil => rfl
      | cons d l2 ih2 =>
        unfold insertLe
        by_cases h : le a d
        · simp [h]
        · simp only [h, Bool.false_eq_true, if_false, List.length_cons, ih2]
    rw [hi, ih, List.length_cons]

/-- A row of a saved table is either the saved row or an untouched row
with a different primary key. -/
theorem mem_saveRow {l : List Message} {mm m2 : Message}
    (h : m2 ∈ saveRow l mm) : m2 = mm ∨ (m2 ∈ l ∧ m2.id ≠ mm.id) := by
  unfold saveRow at h
  rw [List.mem_map] at h
  obtain ⟨old, hold, heq⟩ := h
  by_cases hid : old.id = mm.id
  · left
    rw [← heq, if_pos hid]
  · right
    rw [← heq, if_neg hid]
    exact ⟨hold, hid⟩

/-- Looking a row up after saving a row with the looked-up key returns
the saved row. -/
theorem find?_saveRow {l : List Message} {mm : Message} {mid : MsgId}
    (hid : mm.id = mid) (h : (l.find? (fun m => m.id = mid)).isSome) :
    (saveRow l mm).find? (fun m => m.id = mid) = some mm := by
  induction l with
  | nil => simp [List.find?] at h
  | cons a l ih =>
    unfold saveRow
    by_cases ha : a.id = mid
    · have : a.id = mm.id := by rw [ha, hid]
      simp only [List.map_cons, this, if_true, List.find?_cons]
      simp [hid]
    · have : ¬(a.id = mm.id) := by rw [hid]; exact ha
      simp only [List.map_cons, this, if_false, List.find?_cons]
      rw [List.find?_cons] at h
      cases hd : (decide (a.id = mid)) with
      | true => exact absurd (of_decide_eq_true hd) ha
      | false =>
        rw [hd] at h
        simp only [hd]
        exact ih h

/-- Decomposition of membership in the filtered history fetch. -/
theorem mem_filtered_fetch {s : Store} {conv : ConvId} {u : UserId}
    {lim off : Nat} {m2 : Message}
    (h : m2 ∈ findByConversationIdFiltered s conv u lim off) :
    m2 ∈ s.messages ∧ m2.conversationId = conv ∧ m2.isDeleted = false ∧
      (deletedIdsFor s u).contains m2.id = false := by
  unfold findByConversationIdFiltered at h
  have h2 := List.mem_of_mem_drop (List.mem_of_mem_take h)
  rw [mem_sortLe, List.mem_filter] at h2
  obtain ⟨hmem, hpred⟩ := h2
  simp only [Bool.and_eq_true, decide_eq_true_eq, Bool.not_eq_true'] at hpred
  exact ⟨hmem, hpred.1.1, hpred.1.2, hpred.2⟩

/-- Decomposition of membership in an in-conversation search result. -/
theorem mem_searchMessages {s : Store} {conv : ConvId} {u : UserId}
    {q : String} {lim : Nat} {r : List Message} {m2 : Message}
    (h : searchMessages s conv u q lim = Except.ok r) (hm : m2 ∈ r) :
    m2 ∈ s.messages ∧ m2.conversationId = conv ∧
      contentLikeQuery q m2.content = true ∧ m2.isDeleted = false := by
  unfold searchMessages at h
  by_cases hp : isParticipant s conv u
  · simp only [hp, Bool.true_eq_false, if_false, Except.ok.injEq] at h
    rw [← h] at hm
    have h2 := List.mem_of_mem_take hm
    rw [mem_sortLe, List.mem_filter] at h2
    obtain ⟨hmem, hpred⟩ := h2
    simp only [Bool.and_eq_true, decide_eq_true_eq] at hpred
    exact ⟨hmem, hpred.1.1, hpred.1.2, hpred.2⟩
  · simp only [Bool.not_eq_true] at hp
    rw [if_pos hp] at h
    cases h

/-- Decomposition of membership in a global search result. -/
theorem mem_searchGlobal {s : Store} {u : UserId} {q : String} {lim : Nat}
    {m2 : Message} (h : m2 ∈ searchMessagesGlobal s u q lim) :
    m2 ∈ s.messages ∧ (userConversationIds s u).contains m2.conversationId = true ∧
      contentLikeQuery q m2.content = true ∧ m2.isDeleted = false := by
  unfold searchMessagesGlobal at h
  by_cases he : (userConversationIds s u).isEmpty
  · rw [if_pos he] at h
    cases h
  · rw [if_neg he] at h
    have h2 := List.mem_of_mem_take h
    rw [mem_sortLe, List.mem_filter] at h2
    obtain ⟨hmem, hpred⟩ := h2
    simp only [Bool.and_eq_true, decide_eq_true_eq] at hpred
    exact ⟨hmem, hpred.1.1, hpred.1.2, hpred.2⟩

/-- Boolean `contains` agrees with list membership on id pairs. -/
theorem contains_iff_mem_pair {l : List (MsgId × UserId)} {a : MsgId × UserId} :
    l.contains a = true ↔ a ∈ l := by
  simp

/-- Boolean `contains` agrees with list membership on message ids. -/
theorem contains_iff_mem_id {l : List MsgId} {a : MsgId} :
    l.contains a = true ↔ a ∈ l := by
  simp

/-- C2 counterexample.  Before global deletion viewer `bee`'s filtered
history fetch of conversation `c2` shows one message; after
`deleteMessageForEveryone` the fetch is empty — the deleted message is
omitted entirely instead of being shown as a tombstone with null content
and a deleted flag. -/
theorem deleteForEveryone_shows_no_tombstone :
    (findByConversationIdFiltered exStoreC2 "c2" "bee").length = 1 ∧
    (deleteMessageForEveryone exStoreC2 "m2" "ann").map
      (fun s2 => findByConversationIdFiltered s2 "c2" "bee") = Except.ok [] :=
  ⟨rfl, rfl⟩

/-- C2 (amended).  Global deletion of m keeps the row in the store as a
tombstone (same id, content nulled, deleted flag set), but every
filtered read path — the per-viewer history fetch and both searches —
excludes m entirely rather than showing the tombstone; the exclusion is
recomputed from the current deleted flag on each read, for every
viewer. -/
theorem deleteForEveryone_tombstone_in_store_excluded_from_reads
    (s s2 : Store) (mid : MsgId) (u : UserId) (m : Message)
    (hfind : findMessage s mid = some m)
    (hok : deleteMessageForEveryone s mid u = Except.ok s2) :
    findMessage s2 mid = some { m with isDeleted := true, content := none } ∧
    (∀ (conv : ConvId) (viewer : UserId) (limit offset : Nat) (m2 : Message),
      m2 ∈ findByConversationIdFiltered s2 conv viewer limit offset → m2.id ≠ mid) ∧
    (∀ (conv : ConvId) (viewer : UserId) (q : String) (limit : Nat) (r : List Message),
      searchMessages s2 conv viewer q limit = Except.ok r →
        ∀ m2 ∈ r, m2.id ≠ mid) ∧
    (∀ (viewer : UserId) (q : String) (limit : Nat) (m2 : Message),
      m2 ∈ searchMessagesGlobal s2 viewer q limit → m2.id ≠ mid) := by
  unfold deleteMessageForEveryone at hok
  rw [hfind] at hok
  dsimp only at hok
  by_cases hs : m.senderId ≠ u
  · rw [if_pos hs] at hok
    cases hok
  · rw [if_neg hs] at hok
    simp only [Except.ok.injEq] at hok
    have hmsg : s2.messages =
        saveRow s.messages { m with isDeleted := true, content := none } := by
      rw [← hok]
    have hmid : ({ m with isDeleted := true, content := none } : Message).id = mid := by
      show m.id = mid
      have hfind2 : s.messages.find? (fun mm => mm.id = mid) = some m := hfind
      have hp := List.find?_some hfind2
      exact of_decide_eq_true hp
    have hdel : ∀ m2 ∈ s2.messages, m2.id = mid → m2.isDeleted = true := by
      intro m2 hm2 hid2
      rw [hmsg] at hm2
      rcases mem_saveRow hm2 with h | ⟨_, hne⟩
      · rw [h]
      · exact absurd (by rw [hid2, hmid]) hne
    refine ⟨?_, ?_, ?_, ?_⟩
    · show s2.messages.find? (fun mm => mm.id = mid) = some _
      rw [hmsg]
      refine find?_saveRow hmid ?_
      show (findMessage s mid).isSome
      rw [hfind]
      rfl
    · intro conv viewer limit offset m2 hm2 hid2
      obtain ⟨hmem, _, hnd, _⟩ := mem_filtered_fetch hm2
      rw [hdel m2 hmem hid2] at hnd
      cases hnd
    · intro conv viewer q limit r hr m2 hm2 hid2
      obtain ⟨hmem, _, _, hnd⟩ := mem_searchMessages hr hm2
      rw [hdel m2 hmem hid2] at hnd
      cases hnd
    · intro viewer q limit m2 hm2 hid2
      obtain ⟨hmem, _, _, hnd⟩ := mem_searchGlobal hm2
      rw [hdel m2 hmem hid2] at hnd
      cases hnd

/-- Witness for C2 (amended): the theorem applied to the concrete store
`exStoreC2`, whose message `m2` is globally deleted by its sender. -/
theorem deleteForEveryone_tombstone_witness :
    findMessage exStoreC2' "m2" =
      some { exMsgC2 with isDeleted := true, content := none } :=
  (deleteForEveryone_tombstone_in_store_excluded_from_reads
    exStoreC2 exStoreC2' "m2" "ann" exMsgC2 rfl rfl).1

/-- C7.  Per-user deletion by viewer v hides the message from v's
filtered fetch with no tombstone, leaves every other participant's
filtered fetch unchanged, keeps the deletion table duplicate-free, and a
repeated call is a no-op returning the same store. -/
theorem deleteForMe_viewer_only (s s2 : Store) (mid : MsgId) (v : UserId) (m : Message)
    (hfind : findMessage s mid = some m)
    (hok : deleteMessageForMe s mid v = Except.ok s2) :
    (∀ (limit offset : Nat) (m2 : Message),
      m2 ∈ findByConversationIdFiltered s2 m.conversationId v limit offset →
        m2.id ≠ mid) ∧
    (∀ (w : UserId), w ≠ v → ∀ (conv : ConvId) (limit offset : Nat),
      findByConversationIdFiltered s2 conv w limit offset =
        findByConversationIdFiltered s conv w limit offset) ∧
    (s.deletions.Nodup → s2.deletions.Nodup) ∧
    deleteMessageForMe s2 mid v = Except.ok s2 := by
  unfold deleteMessageForMe at hok
  rw [hfind] at hok
  have hmsg : s2.messages = s.messages := by
    by_cases hc : s.deletions.contains (mid, v)
    · rw [if_pos hc] at hok
      simp only [Except.ok.injEq] at hok
      rw [← hok]
    · rw [if_neg hc] at hok
      simp only [Except.ok.injEq] at hok
      rw [← hok]
  have hcontains : s2.deletions.contains (mid, v) = true := by
    by_cases hc : s.deletions.contains (mid, v)
    · rw [if_pos hc] at hok
      simp only [Except.ok.injEq] at hok
      rw [← hok]
      exact hc
    · rw [if_neg hc] at hok
      simp only [Except.ok.injEq] at hok
      rw [← hok]
      simp [List.contains_cons]
  refine ⟨?_, ?_, ?_, ?_⟩
  · intro limit offset m2 hm2 hid2
    obtain ⟨_, _, _, hnd⟩ := mem_filtered_fetch hm2
    have : mid ∈ deletedIdsFor s2 v := by
      unfold deletedIdsFor
      rw [List.mem_map]
      refine ⟨(mid, v), ?_, rfl⟩
      rw [List.mem_filter]
      exact ⟨by simpa using hcontains, by simp⟩
    rw [hid2] at hnd
    rw [← contains_iff_mem_id] at this
    rw [this] at hnd
    cases hnd
  · intro w hw conv limit offset
    have hdw : deletedIdsFor s2 w = deletedIdsFor s w := by
      by_cases hc : s.deletions.contains (mid, v)
      · rw [if_pos hc] at hok
        simp only [Except.ok.injEq] at hok
        rw [← hok]
      · rw [if_neg hc] at hok
        simp only [Except.ok.injEq] at hok
        rw [← hok]
        unfold deletedIdsFor
        simp only [List.filter_cons]
        rw [if_neg (by simpa using (Ne.symm hw))]
    unfold findByConversationIdFiltered
    rw [hdw, hmsg]
  · intro hnodup
    by_cases hc : s.deletions.contains (mid, v)
    · rw [if_pos hc] at hok
      simp only [Except.ok.injEq] at hok
      rw [← hok]
      exact hnodup
    · rw [if_neg hc] at hok
      simp only [Except.ok.injEq] at hok
      rw [← hok]
      refine List.Nodup.cons ?_ hnodup
      intro hmem
      rw [← contains_iff_mem_pair] at hmem
      exact hc hmem
  · unfold deleteMessageForMe
    have : findMessage s2 mid = some m := by
      unfold findMessage
      rw [hmsg]
      exact hfind
    rw [this, if_pos hcontains]

/-- Witness for C7: the theorem applied to the concrete store
`exStoreC7`, with viewer `vic` deleting message `m7` for themselves;
the repeated call returns the same store. -/
theorem deleteForMe_viewer_only_witness :
    deleteMessageForMe exStoreC7' "m7" "vic" = Except.ok exStoreC7' :=
  (deleteForMe_viewer_only exStoreC7 exStoreC7' "m7" "vic" exMsgC7 rfl rfl).2.2.2

/-- Inserting a socket id never produces an empty set. -/
theorem socketInsert_ne_nil (s : SocketId) (l : List SocketId) :
    socketInsert s l ≠ [] := by
  unfold socketInsert
  by_cases h : l.contains s
  · rw [if_pos h]
    intro he
    rw [he] at h
    cases h
  · rw [if_neg h]
    intro he
    cases List.append_ne_nil_of_right_ne_nil l (by simp) he

/-- A key-preserving rewrite of an association list does not change
whether a key is found. -/
theorem find?_isSome_map_of_key (g : UserId × List SocketId → UserId × List SocketId)
    (hg : ∀ p, (g p).1 = p.1) (u : UserId) (l : List (UserId × List SocketId)) :
    ((l.map g).find? (fun p => p.1 = u)).isSome =
      (l.find? (fun p => p.1 = u)).isSome := by
  induction l with
  | nil => rfl
  | cons a l ih =>
    simp only [List.map_cons]
    by_cases hd : a.1 = u
    · rw [List.find?_cons_of_pos _ (by simp [hg a, hd]),
        List.find?_cons_of_pos _ (by simp [hd])]
      rfl
    · rw [List.find?_cons_of_neg _ (by simp [hg a, hd]),
        List.find?_cons_of_neg _ (by simp [hd])]
      exact ih

/-- Filtering out another user's entries does not change a key lookup. -/
theorem find?_filter_ne_key {u u' : UserId} (h : u ≠ u')
    (l : List (UserId × List SocketId)) :
    (l.filter (fun p => p.1 ≠ u')).find? (fun p => p.1 = u) =
      l.find? (fun p => p.1 = u) := by
  induction l with
  | nil => rfl
  | cons a l ih =>
    by_cases ha : a.1 = u'
    · rw [List.filter_cons_of_neg (by simp [ha]),
        List.find?_cons_of_neg _ (by simp; intro he; exact h (he ▸ ha))]
      exact ih
    · rw [List.filter_cons_of_pos (by simp [ha])]
      by_cases hu : a.1 = u
      · rw [List.find?_cons_of_pos _ (by simp [hu]),
          List.find?_cons_of_pos _ (by simp [hu])]
      · rw [List.find?_cons_of_neg _ (by simp [hu]),
          List.find?_cons_of_neg _ (by simp [hu])]
        exact ih

/-- `isUserOnline` is key presence in the user-socket map. -/
theorem isUserOnline_eq_isSome (st : PresenceState) (u : UserId) :
    isUserOnline st u = (alistGet st.userSockets u).isSome := by
  unfold isUserOnline alistGet
  cases st.userSockets.find? (fun p => p.1 = u) <;> rfl

/-- One connection event preserves the non-empty-set invariant. -/
theorem presenceInv_step (st : PresenceState) (e : ConnEvent)
    (hinv : presenceInv st) : presenceInv (presenceStep st e) := by
  cases e with
  | connect sid uid =>
    cases uid with
    | none => exact hinv
    | some u =>
      show presenceInv (handleConnection st sid (some u)).1
      unfold handleConnection
      dsimp only
      cases hg : alistGet st.userSockets u with
      | none =>
        simp only [hg]
        intro p hp
        rw [List.mem_append] at hp
        rcases hp with hp | hp
        · exact hinv p hp
        · simp only [List.mem_singleton] at hp
          rw [hp]
          simp
      | some sockets =>
        simp only [hg]
        intro p hp
        unfold alistSet at hp
        rw [List.mem_map] at hp
        obtain ⟨q, hq, hpq⟩ := hp
        by_cases hqk : q.1 = u
        · rw [← hpq, if_pos hqk]
          exact socketInsert_ne_nil sid sockets
        · rw [← hpq, if_neg hqk]
          exact hinv q hq
  | disconnect sid =>
    show presenceInv (handleDisconnect st sid).1
    unfold handleDisconnect
    cases hfu : (st.socketUsers.find? (fun p => p.1 = sid)).map (fun p => p.2) with
    | none => exact hinv
    | some u =>
      dsimp only
      cases hg : alistGet st.userSockets u with
      | none => exact hinv
      | some sockets =>
        simp only [hg]
        by_cases he : (sockets.erase sid).isEmpty
        · rw [if_pos he]
          intro p hp
          unfold alistRemove at hp
          exact hinv p (List.mem_of_mem_filter hp)
        · rw [if_neg he]
          intro p hp
          unfold alistSet at hp
          rw [List.mem_map] at hp
          obtain ⟨q, hq, hpq⟩ := hp
          by_cases hqk : q.1 = u
          · rw [← hpq, if_pos hqk]
            intro hnil
            have hn2 : sockets.erase sid = [] := hnil
            rw [hn2] at he
            exact he rfl
          · rw [← hpq, if_neg hqk]
            exact hinv q hq

/-- Every reachable presence state satisfies the invariant. -/
theorem presenceInv_run (es : List ConnEvent) : presenceInv (presenceRun es) := by
  have gen : ∀ (l : List ConnEvent) (st : PresenceState), presenceInv st →
      presenceInv (l.foldl presenceStep st) := by
    intro l
    induction l with
    | nil => intro st h; exact h
    | cons e l ih =>
      intro st h
      exact ih (presenceStep st e) (presenceInv_step st e h)
  exact gen es PresenceState.empty (by intro p hp; cases hp)

/-- Under the invariant, key presence coincides with a non-empty
connection set. -/
theorem online_iff_of_inv (st : PresenceState) (hinv : presenceInv st)
    (u : UserId) : isUserOnline st u = true ↔ connectionsOf st u ≠ [] := by
  rw [isUserOnline_eq_isSome]
  unfold connectionsOf
  cases hf : alistGet st.userSockets u with
  | none => exact ⟨fun h2 => absurd h2 (by decide), fun h2 => absurd rfl h2⟩
  | some sockets =>
    refine ⟨fun _ => ?_, fun _ => rfl⟩
    show sockets ≠ []
    unfold alistGet at hf
    cases hf2 : st.userSockets.find? (fun p => p.1 = u) with
    | none => rw [hf2] at hf; cases hf
    | some p =>
      rw [hf2] at hf
      have hf3 : p.2 = sockets := by injection hf
      rw [← hf3]
      exact hinv p (List.mem_of_find?_eq_some hf2)

/-- A non-empty connection set implies the key is present. -/
theorem online_of_connections_ne (st : PresenceState) (u : UserId)
    (h : connectionsOf st u ≠ []) : isUserOnline st u = true := by
  rw [isUserOnline_eq_isSome]
  unfold connectionsOf at h
  cases hf : alistGet st.userSockets u with
  | none =>
    rw [hf] at h
    exact absurd rfl h
  | some sockets => rfl

/-- A present key stays found after a key-preserving set. -/
theorem isSome_find?_alistSet (l : List (UserId × List SocketId)) (k : UserId)
    (v : List SocketId) (u : UserId)
    (h : (l.find? (fun p => p.1 = u)).isSome = true) :
    ((alistSet l k v).find? (fun p => p.1 = u)).isSome = true := by
  unfold alistSet
  rw [find?_isSome_map_of_key _ ?hg u l]
  · exact h
  case hg =>
    intro p
    by_cases hpk : p.1 = k
    · rw [if_pos hpk]
      exact hpk.symm
    · rw [if_neg hpk]

/-- Removing one of at least two distinct live connections of user u
keeps u online and emits no `userOffline` event for u. -/
theorem disconnect_keeps_other (st : PresenceState) (u : UserId) (s1 s2 : SocketId)
    (h12 : s1 ≠ s2) (h1 : s1 ∈ connectionsOf st u) (h2 : s2 ∈ connectionsOf st u) :
    isUserOnline (handleDisconnect st s1).1 u = true ∧
    PresenceEvent.userOffline u ∉ (handleDisconnect st s1).2 := by
  have hne : connectionsOf st u ≠ [] := fun he => by rw [he] at h1; cases h1
  obtain ⟨sockets, hs⟩ : ∃ l2, alistGet st.userSockets u = some l2 := by
    unfold connectionsOf at hne
    cases hg : alistGet st.userSockets u with
    | none => rw [hg] at hne; exact absurd rfl hne
    | some l2 => exact ⟨l2, rfl⟩
  have h1s : s1 ∈ sockets := by
    unfold connectionsOf at h1; rw [hs] at h1; exact h1
  have h2s : s2 ∈ sockets := by
    unfold connectionsOf at h2; rw [hs] at h2; exact h2
  have hsome : (st.userSockets.find? (fun p => p.1 = u)).isSome = true := by
    unfold alistGet at hs
    cases hf2 : st.userSockets.find? (fun p => p.1 = u) with
    | none => rw [hf2] at hs; cases hs
    | some p => rfl
  unfold handleDisconnect
  cases hfu : (st.socketUsers.find? (fun p => p.1 = s1)).map (fun p => p.2) with
  | none =>
    exact ⟨online_of_connections_ne st u hne, fun hmem => by cases hmem⟩
  | some u2 =>
    dsimp only
    by_cases huu : u2 = u
    · subst huu
      rw [hs]
      dsimp only
      have hrem : s2 ∈ sockets.erase s1 :=
        (List.mem_erase_of_ne (Ne.symm h12)).2 h2s
      have hne2 : ¬(sockets.erase s1).isEmpty = true := by
        intro hempty
        rw [List.isEmpty_iff] at hempty
        rw [hempty] at hrem
        cases hrem
      rw [if_neg hne2]
      refine ⟨?_, fun hmem => by cases hmem⟩
      rw [isUserOnline_eq_isSome]
      unfold alistGet
      rw [Option.isSome_map']
      exact isSome_find?_alistSet st.userSockets u2 (sockets.erase s1) u2 hsome
    · cases hg2 : alistGet st.userSockets u2 with
      | none =>
        exact ⟨online_of_connections_ne st u hne, fun hmem => by cases hmem⟩
      | some sockets2 =>
        dsimp only
        by_cases he2 : (sockets2.erase s1).isEmpty
        · rw [if_pos he2]
          constructor
          · rw [isUserOnline_eq_isSome]
            unfold alistGet alistRemove
            rw [Option.isSome_map',
              find?_filter_ne_key (fun heq => huu heq.symm) st.userSockets]
            exact hsome
          · intro hmem
            simp only [List.mem_singleton] at hmem
            injection hmem with heq
            exact huu heq.symm
        · rw [if_neg he2]
          refine ⟨?_, fun hmem => by cases hmem⟩
          rw [isUserOnline_eq_isSome]
          unfold alistGet
          rw [Option.isSome_map']
          exact isSome_find?_alistSet st.userSockets u2 (sockets2.erase s1) u hsome

/-- C3.  In every reachable presence state (any sequence of
connect/disconnect events from the empty registry) a user is online
exactly when their connection set is non-empty, every stored socket set
is non-empty (a key exists iff its set is non-empty), and disconnecting
one of two distinct live connections of u keeps u online and emits no
offline event for u. -/
theorem presence_online_iff_connections (es : List ConnEvent) :
    (∀ u : UserId, isUserOnline (presenceRun es) u = true ↔
      connectionsOf (presenceRun es) u ≠ []) ∧
    (∀ p ∈ (presenceRun es).userSockets, p.2 ≠ []) ∧
    (∀ (u : UserId) (s1 s2 : SocketId), s1 ≠ s2 →
      s1 ∈ connectionsOf (presenceRun es) u →
      s2 ∈ connectionsOf (presenceRun es) u →
      isUserOnline (handleDisconnect (presenceRun es) s1).1 u = true ∧
      PresenceEvent.userOffline u ∉ (handleDisconnect (presenceRun es) s1).2) := by
  refine ⟨fun u => online_iff_of_inv _ (presenceInv_run es) u,
    presenceInv_run es, ?_⟩
  intro u s1 s2 h12 h1 h2
  exact disconnect_keeps_other (presenceRun es) u s1 s2 h12 h1 h2

/-- Witness for C3: user `u` connects from devices `sA` and `sB`;
disconnecting `sA` keeps `u` online and emits no offline event. -/
theorem presence_online_iff_connections_witness :
    isUserOnline (handleDisconnect (presenceRun exTraceC3) "sA").1 "u" = true ∧
    PresenceEvent.userOffline "u" ∉
      (handleDisconnect (presenceRun exTraceC3) "sA").2 :=
  (presence_online_iff_connections exTraceC3).2.2 "u" "sA" "sB"
    (by decide) (by decide) (by decide)

/-- The participant-channel loop is a map over the non-sender
participants. -/
theorem broadcast_userEvents_eq (conv : ConvId) (mid : MsgId) (sender : UserId)
    (ps : List UserId) :
    ps.filterMap (fun p =>
        if p ≠ sender then
          some (FanoutEvent.userConversationUpdated p conv mid) else none) =
      (ps.filter (fun p => p ≠ sender)).map
        (fun p => FanoutEvent.userConversationUpdated p conv mid) := by
  induction ps with
  | nil => rfl
  | cons a l ih =>
    rw [List.filterMap_cons, List.filter_cons]
    by_cases ha : a ≠ sender
    · rw [if_pos ha, if_pos (by simpa using ha)]
      dsimp only
      rw [List.map_cons, ih]
    · rw [if_neg ha, if_neg (by simpa using ha)]
      dsimp only
      rw [ih]

/-- C4.  `broadcastToConversation` emits exactly one room event and,
given a duplicate-free participant list, exactly one per-user
`conversationUpdated` notification to every participant other than the
sender (independent of any room subscription) and none to the sender. -/
theorem broadcast_one_room_one_per_participant
    (conv : ConvId) (mid : MsgId) (sender : UserId) (ps : List UserId)
    (hnd : ps.Nodup) :
    ((broadcastToConversation conv mid sender (some ps)).count
        (FanoutEvent.roomNewMessage conv mid) = 1) ∧
    (∀ p ∈ ps, p ≠ sender →
      (broadcastToConversation conv mid sender (some ps)).count
        (FanoutEvent.userConversationUpdated p conv mid) = 1) ∧
    ((broadcastToConversation conv mid sender (some ps)).count
        (FanoutEvent.userConversationUpdated sender conv mid) = 0) := by
  have hif : (if ps.isEmpty then ([] : List FanoutEvent)
      else ps.filterMap (fun p =>
        if p ≠ sender then
          some (FanoutEvent.userConversationUpdated p conv mid) else none)) =
      (ps.filter (fun p => p ≠ sender)).map
        (fun p => FanoutEvent.userConversationUpdated p conv mid) := by
    cases ps with
    | nil => rfl
    | cons a l =>
      rw [if_neg (by rw [List.isEmpty_cons]; exact Bool.false_ne_true)]
      exact broadcast_userEvents_eq conv mid sender (a :: l)
  have hinj : Function.Injective
      (fun p => FanoutEvent.userConversationUpdated p conv mid) := by
    intro a b hab
    injection hab
  have hz0 : ∀ qs : List UserId,
      List.count (FanoutEvent.roomNewMessage conv mid)
        (qs.map (fun p => FanoutEvent.userConversationUpdated p conv mid)) = 0 := by
    intro qs
    rw [List.count_eq_zero]
    intro hmem
    rw [List.mem_map] at hmem
    obtain ⟨p, _, hp⟩ := hmem
    exact nomatch hp
  have hz1 : ∀ x : UserId,
      List.count (FanoutEvent.userConversationUpdated x conv mid)
        [FanoutEvent.roomNewMessage conv mid] = 0 := by
    intro x
    rw [List.count_eq_zero]
    intro hmem
    rw [List.mem_singleton] at hmem
    exact nomatch hmem
  have hz2 : ∀ (qs : List UserId) (x : UserId),
      List.count (FanoutEvent.userConversationUpdated x conv mid)
        (qs.map (fun p => FanoutEvent.userConversationUpdated p conv mid)) =
          qs.count x :=
    fun qs x => List.count_map_of_injective qs _ hinj x
  unfold broadcastToConversation
  dsimp only
  rw [hif]
  refine ⟨?_, ?_, ?_⟩
  · rw [List.count_append, hz0]
    simp [List.count_singleton]
  · intro p hp hps
    rw [List.count_append, hz1, hz2, Nat.zero_add]
    refine List.count_eq_one_of_mem (hnd.filter _) ?_
    rw [List.mem_filter]
    exact ⟨hp, by simp [hps]⟩
  · rw [List.count_append, hz1, hz2, Nat.zero_add]
    rw [List.count_eq_zero]
    intro hmem
    rw [List.mem_filter] at hmem
    have := hmem.2
    simp at this

/-- Witness for C4: sender `alice` in a two-member conversation receives
no per-user notification while `bob` receives exactly one. -/
theorem broadcast_one_room_one_per_participant_witness :
    ((broadcastToConversation "c" "m" "alice" (some ["alice", "bob"])).count
        (FanoutEvent.userConversationUpdated "bob" "c" "m") = 1) ∧
    ((broadcastToConversation "c" "m" "alice" (some ["alice", "bob"])).count
        (FanoutEvent.userConversationUpdated "alice" "c" "m") = 0) :=
  ⟨(broadcast_one_room_one_per_participant "c" "m" "alice" ["alice", "bob"]
      (by decide)).2.1 "bob" (by decide) (by decide),
   (broadcast_one_room_one_per_participant "c" "m" "alice" ["alice", "bob"]
      (by decide)).2.2⟩

/-- C8.  Authorization failures precede any mutation: for a payload that
passes content validation, a non-participant sender makes `saveMessage`
return the authorization error (so no message row and no preview update
is produced), and a non-sender caller makes `editMessage` and
`deleteMessageForEveryone` return the authorization error with the store
untouched. -/
theorem authorization_before_mutation :
    (∀ (s : Store) (dto : CreateMessageDto) (newId : MsgId) (now : Nat),
      validateMessageContent dto = true →
      isParticipant s dto.conversationId dto.senderId = false →
      saveMessage s dto newId now = Except.error ChatError.forbidden) ∧
    (∀ (s : Store) (mid : MsgId) (caller : UserId) (nc : String) (now : Nat)
      (m : Message), findMessage s mid = some m → m.senderId ≠ caller →
      editMessage s mid caller nc now = Except.error ChatError.forbidden) ∧
    (∀ (s : Store) (mid : MsgId) (caller : UserId) (m : Message),
      findMessage s mid = some m → m.senderId ≠ caller →
      deleteMessageForEveryone s mid caller = Except.error ChatError.forbidden) := by
  refine ⟨?_, ?_, ?_⟩
  · intro s dto newId now hv hnp
    unfold saveMessage
    rw [hv, hnp]
    rw [if_neg (by decide)]
    rw [if_pos rfl]
  · intro s mid caller nc now m hfind hs
    unfold editMessage
    rw [hfind]
    dsimp only
    rw [if_pos hs]
  · intro s mid caller m hfind hs
    unfold deleteMessageForEveryone
    rw [hfind]
    dsimp only
    rw [if_pos hs]

/-- Witness for C8: non-participant `eve` cannot send into `c8`, and
non-sender `eve` cannot edit or globally delete `ann`'s message. -/
theorem authorization_before_mutation_witness :
    saveMessage exStoreC8 exDtoC8 "n1" 5 = Except.error ChatError.forbidden ∧
    editMessage exStoreC8 "m8" "eve" "x" 6 = Except.error ChatError.forbidden ∧
    deleteMessageForEveryone exStoreC8 "m8" "eve" = Except.error ChatError.forbidden :=
  ⟨authorization_before_mutation.1 exStoreC8 exDtoC8 "n1" 5 (by decide) (by decide),
   authorization_before_mutation.2.1 exStoreC8 "m8" "eve" "x" 6 exMsgC8 rfl (by decide),
   authorization_before_mutation.2.2 exStoreC8 "m8" "eve" exMsgC8 rfl (by decide)⟩

/-- C10.  `forwardMessage` returns NotFound exactly when the original id
is unresolved and the authorization error exactly when the forwarder is
not a participant of the target conversation; otherwise it succeeds with
an independent copy (content copied verbatim, `forwardedFromId` set,
status SENT) — there is no check that the forwarder belongs to the
source conversation nor that the original is not globally deleted. -/
theorem forwardMessage_checks (s : Store) (mid : MsgId) (u : UserId)
    (t : ConvId) (newId : MsgId) (now : Nat) :
    (forwardMessage s mid u t newId now = Except.error ChatError.notFound ↔
      findMessage s mid = none) ∧
    (forwardMessage s mid u t newId now = Except.error ChatError.forbidden ↔
      (findMessage s mid).isSome = true ∧ isParticipant s t u = false) ∧
    (∀ m : Message, findMessage s mid = some m → isParticipant s t u = true →
      ∃ fwd s2, forwardMessage s mid u t newId now = Except.ok (fwd, s2) ∧
        fwd.content = m.content ∧ fwd.forwardedFromId = some mid ∧
        fwd.conversationId = t ∧ fwd.senderId = u ∧
        fwd.status = MessageStatus.SENT ∧ s2.messages = s.messages ++ [fwd] ∧
        s2.deletions = s.deletions ∧ s2.participants = s.participants) := by
  unfold forwardMessage
  cases hf : findMessage s mid with
  | none =>
    refine ⟨⟨fun _ => rfl, fun _ => rfl⟩, ⟨fun h => (nomatch h), fun h => ?_⟩, ?_⟩
    · rw [Option.isSome_none] at h
      exact absurd h.1 (by decide)
    · intro m hm
      exact nomatch hm
  | some m =>
    dsimp only
    by_cases hp : isParticipant s t u = false
    · rw [if_pos hp]
      refine ⟨⟨fun h => (nomatch h), fun h => (nomatch h)⟩,
        ⟨fun _ => ⟨rfl, hp⟩, fun _ => rfl⟩, ?_⟩
      intro m2 hm2 hp2
      injection hm2 with hm2
      rw [hp2] at hp
      exact nomatch hp
    · rw [if_neg hp]
      refine ⟨⟨fun h => (nomatch h), fun h => (nomatch h)⟩,
        ⟨fun h => (nomatch h), fun h => absurd h.2 hp⟩, ?_⟩
      intro m2 hm2 hp2
      injection hm2 with hm2
      subst hm2
      exact ⟨_, _, rfl, rfl, rfl, rfl, rfl, rfl, rfl, rfl, rfl⟩

/-- Witness for C10: the globally deleted message `m10` is forwarded by
`fred`, who is not a participant of the source conversation `cx`; the
forward succeeds and copies the null content. -/
theorem forwardMessage_checks_witness :
    ∃ fwd s2,
      forwardMessage exStoreC10 "m10" "fred" "ct" "n10" 9 = Except.ok (fwd, s2) ∧
      fwd.content = exMsgC10.content ∧ fwd.forwardedFromId = some "m10" ∧
      fwd.conversationId = "ct" ∧ fwd.senderId = "fred" ∧
      fwd.status = MessageStatus.SENT ∧
      s2.messages = exStoreC10.messages ++ [fwd] ∧
      s2.deletions = exStoreC10.deletions ∧
      s2.participants = exStoreC10.participants :=
  (forwardMessage_checks exStoreC10 "m10" "fred" "ct" "n10" 9).2.2
    exMsgC10 rfl (by decide)

/-- Pointwise-equal predicates give equal `any`. -/
theorem any_congr_chars {f g : List Char → Bool} {l : List (List Char)}
    (h : ∀ x ∈ l, f x = g x) : l.any f = l.any g := by
  induction l with
  | nil => rfl
  | cons a l ih =>
    rw [List.any_cons, List.any_cons, h a (by simp),
      ih fun x hx => h x (by simp [hx])]

/-- The empty list is among the suffixes of every list. -/
theorem nil_mem_suffixes (s : List Char) : [] ∈ suffixes s := by
  induction s with
  | nil => simp [suffixes]
  | cons c s ih =>
    unfold suffixes
    exact List.mem_cons_of_mem _ ih

/-- A wildcard-free pattern followed by `%` matches exactly the strings
it is a prefix of. -/
theorem likeMatch_append_percent {p : List Char} (hw : noWildcards p = true) :
    ∀ s : List Char, likeMatch (p ++ ['%']) s = startsWithChars p s := by
  induction p with
  | nil =>
    intro s
    show likeMatch ['%'] s = true
    unfold likeMatch
    rw [if_pos rfl]
    rw [List.any_eq_true]
    exact ⟨[], nil_mem_suffixes s, rfl⟩
  | cons a p ih =>
    intro s
    rw [noWildcards, List.all_cons, Bool.and_eq_true] at hw
    have ha1 : ¬(a = '%') := by
      intro he
      rw [he] at hw
      exact absurd hw.1 (by decide)
    have ha2 : ¬(a = '_') := by
      intro he
      rw [he] at hw
      exact absurd hw.1 (by decide)
    show likeMatch (a :: (p ++ ['%'])) s = startsWithChars (a :: p) s
    unfold likeMatch
    rw [if_neg ha1]
    cases s with
    | nil => rfl
    | cons c s2 =>
      dsimp only
      rw [if_neg ha2]
      show (decide (a = c) && likeMatch (p ++ ['%']) s2) = _
      rw [ih hw.2 s2]
      rfl

/-- For wildcard-free q the `LIKE '%q%'` test is exactly substring
containment. -/
theorem likeMatch_eq_containsChars {p : List Char} (hw : noWildcards p = true)
    (s : List Char) : likeMatch ('%' :: (p ++ ['%'])) s = containsChars p s := by
  show likeMatch ('%' :: (p ++ ['%'])) s = (suffixes s).any (fun t => startsWithChars p t)
  unfold likeMatch
  rw [if_pos rfl]
  exact any_congr_chars fun t _ => likeMatch_append_percent hw t

/-- For a wildcard-free query the source search condition coincides with
case-insensitive substring containment. -/
theorem contentLikeQuery_eq_containsCI {q : String}
    (hw : noWildcards (lowerChars q) = true) (content : Option String) :
    contentLikeQuery q content = containsCI q content := by
  cases content with
  | none => rfl
  | some c =>
    show likeMatch ('%' :: (lowerChars q ++ ['%'])) (lowerChars c) = _
    exact likeMatch_eq_containsChars hw (lowerChars c)

/-- C9 counterexample.  The query `%` is passed into the SQL `LIKE`
pattern unescaped: the search returns the message with content `abc`,
which does not contain `%` as a (case-insensitive) substring. -/
theorem search_returns_wildcard_match_not_substring :
    searchMessages exStoreC9 "c9" "uu" "%" 20 = Except.ok [exMsgC9] ∧
    searchMessagesGlobal exStoreC9 "uu" "%" 50 = [exMsgC9] ∧
    containsCI "%" exMsgC9.content = false :=
  ⟨rfl, rfl, rfl⟩

/-- C9 (amended).  Search results are exactly the non-globally-deleted
in-scope messages whose lowercased content matches the SQL LIKE pattern
built from the lowercased query, newest-first and truncated to `limit`:
every result is in scope, not deleted, and LIKE-matching; for a
wildcard-free query LIKE-matching is exactly case-insensitive substring
containment; and when at most `limit` rows match, every matching row is
returned (for the in-conversation and the global search alike). -/
theorem search_like_semantics :
    (∀ (s : Store) (conv : ConvId) (u : UserId) (q : String) (lim : Nat)
      (r : List Message), searchMessages s conv u q lim = Except.ok r →
      ∀ m ∈ r, m ∈ s.messages ∧ m.conversationId = conv ∧
        m.isDeleted = false ∧ contentLikeQuery q m.content = true) ∧
    (∀ (s : Store) (u : UserId) (q : String) (lim : Nat) (m : Message),
      m ∈ searchMessagesGlobal s u q lim →
      m ∈ s.messages ∧ isParticipant s m.conversationId u = true ∧
        m.isDeleted = false ∧ contentLikeQuery q m.content = true) ∧
    (∀ (q : String), noWildcards (lowerChars q) = true →
      ∀ content : Option String, contentLikeQuery q content = containsCI q content) ∧
    (∀ (s : Store) (conv : ConvId) (u : UserId) (q : String) (lim : Nat)
      (r : List Message), searchMessages s conv u q lim = Except.ok r →
      s.messages.countP (fun m => m.conversationId = conv &&
        contentLikeQuery q m.content && m.isDeleted = false) ≤ lim →
      ∀ m ∈ s.messages, m.conversationId = conv → m.isDeleted = false →
        contentLikeQuery q m.content = true → m ∈ r) ∧
    (∀ (s : Store) (u : UserId) (q : String) (lim : Nat),
      s.messages.countP (fun m =>
        (userConversationIds s u).contains m.conversationId &&
        contentLikeQuery q m.content && m.isDeleted = false) ≤ lim →
      ∀ m ∈ s.messages, isParticipant s m.conversationId u = true →
        m.isDeleted = false → contentLikeQuery q m.content = true →
        m ∈ searchMessagesGlobal s u q lim) := by
  refine ⟨?_, ?_, ?_, ?_, ?_⟩
  · intro s conv u q lim r hok m hm
    obtain ⟨h1, h2, h3, h4⟩ := mem_searchMessages hok hm
    exact ⟨h1, h2, h4, h3⟩
  · intro s u q lim m hm
    obtain ⟨h1, h2, h3, h4⟩ := mem_searchGlobal hm
    rw [contains_userConversationIds] at h2
    exact ⟨h1, h2, h4, h3⟩
  · intro q hw content
    exact contentLikeQuery_eq_containsCI hw content
  · intro s conv u q lim r hok hcount m hm hconv hdel hlike
    unfold searchMessages at hok
    by_cases hp : isParticipant s conv u
    · rw [if_neg (by rw [hp]; exact fun h => nomatch h)] at hok
      simp only [Except.ok.injEq] at hok
      rw [← hok]
      rw [List.countP_eq_length_filter] at hcount
      rw [List.take_of_length_le (by rw [length_sortLe]; exact hcount)]
      rw [mem_sortLe, List.mem_filter]
      exact ⟨hm, by simp [hconv, hdel, hlike]⟩
    · rw [Bool.not_eq_true] at hp
      rw [if_pos hp] at hok
      cases hok
  · intro s u q lim hcount m hm hpart hdel hlike
    have hscope : (userConversationIds s u).contains m.conversationId = true := by
      rw [contains_userConversationIds]
      exact hpart
    unfold searchMessagesGlobal
    by_cases hne : (userConversationIds s u).isEmpty
    · rw [List.isEmpty_iff] at hne
      rw [hne] at hscope
      cases hscope
    · rw [if_neg hne]
      rw [List.countP_eq_length_filter] at hcount
      rw [List.take_of_length_le (by rw [length_sortLe]; exact hcount)]
      rw [mem_sortLe, List.mem_filter]
      have hmem2 : m.conversationId ∈ userConversationIds s u := by
        simpa using hscope
      exact ⟨hm, by simp [hmem2, hdel, hlike]⟩

/-- Witness for C9 (amended): the wildcard-free query `B` agrees with
substring containment, and on the concrete store the query `b` returns
the message whose content contains it. -/
theorem search_like_semantics_witness :
    contentLikeQuery "B" (some "abc") = containsCI "B" (some "abc") ∧
    exMsgC9 ∈ [exMsgC9] :=
  ⟨search_like_semantics.2.2.1 "B" (by decide) (some "abc"),
   search_like_semantics.2.2.2.1 exStoreC9 "c9" "uu" "b" 20 [exMsgC9] rfl
     (by decide) exMsgC9 (by decide) rfl rfl (by decide)⟩

end ChatApp
